import Mathlib

/-!
Verification of the spaced-repetition memory scoring and session-selection
engine of the sisl-app repository.

The embedding models `src/storage/memoryService.ts` (the scoring engine,
session selector and the AsyncStorage boundary) and the quiz generation of
`src/navigation/screens/MatchingPairsScreen.tsx` (`shuffleArray`,
`generateQuizLessons`).

Modelling conventions:
* JS numbers that hold scores and timestamps are modelled as `Int`
  (all arithmetic involved is integer arithmetic).
* The JS object `WordMemory` (`{ [wordId]: {score, lastSeen} }`) is an
  association list with unique keys; `getRec` is property lookup and
  `setRec` is property assignment (update in place when the key exists,
  append otherwise, matching JS object key semantics).
* `AsyncStorage` is a single cell holding the serialized mapping
  (`none` = key never written, i.e. `getItem` returns `null`); JSON
  round-tripping is the identity and is elided.  Availability of the
  global (`typeof AsyncStorage === 'undefined'`) and read/write failures
  (promise rejections) are modelled by the `available`, `readFails`,
  `writeFails` flags of `Store`; a raised JS exception is an
  `Except.error`, and a `try { } catch { }` block is a `match` on it.
* `Math.random()` draws are modelled by an explicit list of naturals,
  consumed in program order; a draw `r` used where the code computes
  `Math.floor(Math.random() * n)` becomes `r % n`.
-/

namespace SislApp

/-- One entry of the `WordMemory` object of memoryService.ts:
`{ score: number; lastSeen: number }`. -/
structure MemRec where
  score : Int
  lastSeen : Int
deriving DecidableEq, Repr

/-- The `WordMemory` object: a finite mapping from word ids to records,
modelled as an association list with JS object key semantics. -/
abbrev WordMemory := List (String × MemRec)

/-- JS property lookup `scores[wordId]` (as `Option`: `none` = `undefined`). -/
def getRec (m : WordMemory) (k : String) : Option MemRec :=
  match m with
  | [] => none
  | (k2, v) :: rest => if k2 = k then some v else getRec rest k

/-- JS property assignment `scores[wordId] = v`: overwrite in place when the
key is present, append at the end otherwise. -/
def setRec (m : WordMemory) (k : String) (v : MemRec) : WordMemory :=
  match m with
  | [] => [(k, v)]
  | (k2, w) :: rest => if k2 = k then (k, v) :: rest else (k2, w) :: setRec rest k v

/-- `scores[wordId]?.score || 0` (memoryService.ts line 52 and line 134):
the `||` turns a missing record, and a stored score of `0`, into `0`. -/
def effScore (m : WordMemory) (k : String) : Int :=
  match getRec m k with
  | some r => if r.score = 0 then 0 else r.score
  | none => 0

/-- `scores[word.word]?.lastSeen || 0` (memoryService.ts line 135). -/
def effLastSeen (m : WordMemory) (k : String) : Int :=
  match getRec m k with
  | some r => if r.lastSeen = 0 then 0 else r.lastSeen
  | none => 0

/-- The `Word` record of SignDetailsScreen.tsx (`interface Word`). -/
structure Word where
  id : String
  word : String
  definition : String
  signVideo : String
deriving DecidableEq, Repr

/-- The rating enumeration `type Rating = 'Badly' | 'Partly' | 'Well'`. -/
inductive Rating where
  | Badly
  | Partly
  | Well
deriving DecidableEq, Repr

/-- A raised JS exception at the storage boundary. -/
inductive JsError where
  | storageError
deriving DecidableEq, Repr

/-- The state of the AsyncStorage collaborator: whether the global is
defined, whether a `getItem`/`setItem` call rejects, and the content of the
single `@wordMemory` cell (`none` = never written, `getItem` yields `null`). -/
structure Store where
  available : Bool
  readFails : Bool
  writeFails : Bool
  cell : Option WordMemory
deriving DecidableEq, Repr

/-- `AsyncStorage.getItem(MEMORY_KEY)`: rejects when reads fail, otherwise
returns the cell content.  Never modifies the store. -/
def getItem (s : Store) : Except JsError (Option WordMemory) × Store :=
  if s.readFails then (Except.error JsError.storageError, s) else (Except.ok s.cell, s)

/-- `AsyncStorage.setItem(MEMORY_KEY, JSON.stringify(m))`: rejects when
writes fail (leaving the cell untouched), otherwise replaces the cell. -/
def setItem (s : Store) (m : WordMemory) : Except JsError Unit × Store :=
  if s.writeFails then (Except.error JsError.storageError, s)
  else (Except.ok (), { s with cell := some m })

/-- JS `String.prototype.trim()` on the character list: strip leading and
trailing whitespace.  (`Char.isWhitespace` stands in for the JS whitespace
class; the identifiers in play are plain words.) -/
def jsTrim (s : String) : String :=
  String.mk (((s.data.dropWhile Char.isWhitespace).reverse.dropWhile Char.isWhitespace).reverse)

/-- `getMemoryScores` (memoryService.ts lines 20-33): returns `{}` when the
global is missing, when the read rejects (the `catch`), or when the cell was
never written (`data` is `null`); otherwise the parsed mapping. -/
def getMemoryScores (s : Store) : WordMemory × Store :=
  if s.available = false then ([], s)
  else
    match getItem s with
    | (Except.error _, s1) => ([], s1)
    | (Except.ok none, s1) => ([], s1)
    | (Except.ok (some m), s1) => (m, s1)

/-- The `switch (rating)` of `saveWordMemory` (memoryService.ts lines 56-67). -/
def nextScore (rating : Rating) (currentScore : Int) : Int :=
  match rating with
  | Rating.Badly => max 0 (currentScore - 2)
  | Rating.Partly => currentScore
  | Rating.Well => currentScore + 1

/-- `saveWordMemory(wordId, rating)` (memoryService.ts lines 38-78), with the
current time `now` (`Date.now()`) passed explicitly.  The validation guard is
`!wordId || wordId.trim() === ''`; a rejected `setItem` is swallowed by the
surrounding `catch`, leaving the store as it was. -/
def saveWordMemory (s : Store) (wordId : String) (rating : Rating) (now : Int) : Store :=
  if s.available = false then s
  else
    let scores := (getMemoryScores s).1
    let s1 := (getMemoryScores s).2
    if wordId = "" ∨ jsTrim wordId = "" then s1
    else
      let scores2 := setRec scores wordId ⟨nextScore rating (effScore scores wordId), now⟩
      match setItem s1 scores2 with
      | (Except.error _, s2) => s2
      | (Except.ok _, s2) => s2

/-- `addWordMemory(wordId)` (memoryService.ts lines 84-112): a no-op when a
record for `wordId` already exists (`if (scores[wordId])`), otherwise writes
a fresh record `{ score: 0, lastSeen: Date.now() }`.  Note: unlike
`saveWordMemory`, the source has no validity check on `wordId`. -/
def addWordMemory (s : Store) (wordId : String) (now : Int) : Store :=
  if s.available = false then s
  else
    let scores := (getMemoryScores s).1
    let s1 := (getMemoryScores s).2
    if (getRec scores wordId).isSome then s1
    else
      let scores2 := setRec scores wordId ⟨0, now⟩
      match setItem s1 scores2 with
      | (Except.error _, s2) => s2
      | (Except.ok _, s2) => s2

/-- A word annotated with its looked-up score, the element type of
`scoredWords` (`{ ...word, score, lastSeen }`, memoryService.ts lines 132-136). -/
structure ScoredWord where
  w : Word
  score : Int
  lastSeen : Int
deriving DecidableEq, Repr

/-- The comparator of memoryService.ts lines 142-147 read as a `≤` test:
`a` may come no later than `b` iff the comparator value is `≤ 0`, i.e.
ascending score, ties broken by ascending `lastSeen`. -/
def cmpLe (a b : ScoredWord) : Bool :=
  if a.score = b.score then decide (a.lastSeen ≤ b.lastSeen) else decide (a.score < b.score)

/-- The relation sorted by; ES2019 `Array.prototype.sort` is a stable sort
with respect to it, which `List.insertionSort` is. -/
def wordLE (a b : ScoredWord) : Prop := cmpLe a b = true

instance : DecidableRel wordLE := fun a b => instDecidableEqBool (cmpLe a b) true

/-- `getWordsForSession(allWords, count)` (memoryService.ts lines 118-151).
The JS returns the spread objects (`Word` fields plus the added score
fields); the embedding projects back to the `Word` component. -/
def getWordsForSession (s : Store) (allWords : List Word) (count : Nat) :
    List Word × Store :=
  if allWords.length = 0 then ([], s)
  else if allWords.length ≤ count then (allWords, s)
  else
    let scores := (getMemoryScores s).1
    let s1 := (getMemoryScores s).2
    let scoredWords := allWords.map
      (fun w => ScoredWord.mk w (effScore scores w.word) (effLastSeen scores w.word))
    let sortedWords := List.insertionSort wordLE scoredWords
    ((sortedWords.take count).map ScoredWord.w, s1)

/-! ### Specification-side model of the session selector (for C6)

`selectSessionSpec` is written from the spec's words, independently of the
source: default `score=0, lastSeen=0` for absent records, a total order by
ascending score, then ascending `lastSeen`, then candidate input position
("ties beyond `lastSeen` retain candidate input order"), and the first
`count` items of that order. -/

/-- The spec's record lookup: "default `score=0` if absent". -/
def specScore (m : WordMemory) (k : String) : Int :=
  match getRec m k with
  | some r => r.score
  | none => 0

/-- The spec's record lookup: "default `lastSeen=0` if absent". -/
def specLastSeen (m : WordMemory) (k : String) : Int :=
  match getRec m k with
  | some r => r.lastSeen
  | none => 0

/-- Pair each element with its input position, starting at `n`. -/
def withIdx (n : Nat) : List α → List (Nat × α)
  | [] => []
  | a :: rest => (n, a) :: withIdx (n + 1) rest

/-- The spec's total order on position-annotated scored words: ascending
score, then ascending `lastSeen`, then input position. -/
def specLeb (a b : Nat × ScoredWord) : Bool :=
  decide (a.2.score < b.2.score) ||
    (decide (a.2.score = b.2.score) &&
      (decide (a.2.lastSeen < b.2.lastSeen) ||
        (decide (a.2.lastSeen = b.2.lastSeen) && decide (a.1 ≤ b.1))))

/-- The spec's order as a relation. -/
def specLE (a b : Nat × ScoredWord) : Prop := specLeb a b = true

instance : DecidableRel specLE := fun a b => instDecidableEqBool (specLeb a b) true

/-- `selectSession` as described by the spec (section 4.2). -/
def selectSessionSpec (m : WordMemory) (candidates : List Word) (count : Nat) :
    List Word :=
  if candidates.length = 0 then []
  else if candidates.length ≤ count then candidates
  else
    let annotated := candidates.map
      (fun w => ScoredWord.mk w (specScore m w.word) (specLastSeen m w.word))
    let ranked := List.insertionSort specLE (withIdx 0 annotated)
    ((ranked.take count).map (fun p => p.2.w))

/-! ### Quiz generation (MatchingPairsScreen.tsx) -/

/-- One item of a matching-pairs challenge
(`{ signVideo, translation, id }`). -/
structure PairItem where
  signVideo : String
  translation : String
  id : String
deriving DecidableEq, Repr

/-- A generated lesson object: the `type` tag together with the fields the
code puts under `instructions` and `data`. -/
inductive Lesson where
  | error (message : String)
  | translation (instructions : String) (signVideo : String)
      (correctAnswer : String) (options : List String)
  | matchingPairs (instructions : String) (items : List PairItem)
deriving DecidableEq, Repr

/-- The swap
`[array[currentIndex], array[randomIndex]] = [array[randomIndex], array[currentIndex]]`. -/
def listSwap (l : List α) (i j : Nat) : List α :=
  match l[i]?, l[j]? with
  | some a, some b => (l.set i b).set j a
  | _, _ => l

/-- The Fisher-Yates loop of `shuffleArray` (MatchingPairsScreen.tsx lines
300-309): at loop counter `ci` it draws `r`, forms
`randomIndex = r % ci` (the model of `Math.floor(Math.random() * ci)`),
decrements the counter and swaps.  The draw list is threaded through. -/
def fisherYates (l : List α) (ci : Nat) (rng : List Nat) : List α × List Nat :=
  match ci, rng with
  | 0, rest => (l, rest)
  | _ + 1, [] => (l, [])
  | k + 1, r :: rs => fisherYates (listSwap l k (r % (k + 1))) k rs

/-- `shuffleArray(array)` with an explicit stream of random draws. -/
def shuffleArray (l : List α) (rng : List Nat) : List α × List Nat :=
  fisherYates l l.length rng

/-- Fallback value for JS indexing (`shuffledWords[i]` with `i` in bounds
never reaches it). -/
def defaultWord : Word := ⟨"", "", "", ""⟩

/-- `generateQuizLessons(words)` (MatchingPairsScreen.tsx lines 312-417),
with the `Math.random()` draws passed as an explicit list, consumed in the
source's execution order (the pool shuffle, then the option/item shuffles of
lessons 1..6). -/
def generateQuizLessons (words : List Word) (rng : List Nat) : List Lesson :=
  if words.length < 7 then
    [Lesson.error "Not enough words to generate a quiz."]
  else
    let p0 := shuffleArray words rng
    let sw := p0.1
    let w0 := sw.getD 0 defaultWord
    let w1 := sw.getD 1 defaultWord
    let w2 := sw.getD 2 defaultWord
    let w3 := sw.getD 3 defaultWord
    let w4 := sw.getD 4 defaultWord
    let w5 := sw.getD 5 defaultWord
    let w6 := sw.getD 6 defaultWord
    -- Lesson 1: Translation (word 1 vs decoys at shuffled positions 1,2,3)
    let p1 := shuffleArray [w0.word, w1.word, w2.word, w3.word] p0.2
    let lesson1 := Lesson.translation "Translate the sign to the correct word."
      w0.signVideo w0.word p1.1
    -- Lesson 2: Matching pairs (words 2 and 3)
    let p2 := shuffleArray [PairItem.mk w1.signVideo w1.word "1",
                            PairItem.mk w2.signVideo w2.word "2"] p1.2
    let lesson2 := Lesson.matchingPairs
      ("Tap the matching pair (" ++ w1.word ++ " & " ++ w2.word ++ ")") p2.1
    -- Lesson 3: Translation (word 4 vs decoys at shuffled positions 4,5,6)
    let p3 := shuffleArray [w3.word, w4.word, w5.word, w6.word] p2.2
    let lesson3 := Lesson.translation "What is being signed?"
      w3.signVideo w3.word p3.1
    -- Lesson 4: Matching pairs (words 5 and 6)
    let p4 := shuffleArray [PairItem.mk w4.signVideo w4.word "3",
                            PairItem.mk w5.signVideo w5.word "4"] p3.2
    let lesson4 := Lesson.matchingPairs
      ("Tap the matching pair (" ++ w4.word ++ " & " ++ w5.word ++ ")") p4.1
    -- Lesson 5: Translation (word 7 vs decoys at shuffled positions 0,1,4)
    let p5 := shuffleArray [w6.word, w0.word, w1.word, w4.word] p4.2
    let lesson5 := Lesson.translation "Guess the correct translation."
      w6.signVideo w6.word p5.1
    -- Lesson 6: Matching pairs (words 1 and 7)
    let p6 := shuffleArray [PairItem.mk w0.signVideo w0.word "5",
                            PairItem.mk w6.signVideo w6.word "6"] p5.2
    let lesson6 := Lesson.matchingPairs
      ("Tap the matching pair (" ++ w0.word ++ " & " ++ w6.word ++ ")") p6.1
    [lesson1, lesson2, lesson3, lesson4, lesson5, lesson6]

/-- The `type` field of a generated lesson. -/
def lessonType : Lesson → String
  | Lesson.error _ => "error"
  | Lesson.translation _ _ _ _ => "translation"
  | Lesson.matchingPairs _ _ => "matching_pairs"

/-- Whether a word identifier appears in a challenge (as a translation
challenge's correct answer or option, or as a pair item's translation). -/
def lessonMentions (l : Lesson) (x : String) : Bool :=
  match l with
  | Lesson.error _ => false
  | Lesson.translation _ _ ca opts => ca = x || opts.contains x
  | Lesson.matchingPairs _ items => items.any (fun it => it.translation = x)

/-- The per-challenge well-formedness of C8: a translation challenge has its
4 pairwise-distinct options including the correct answer; a matching-pairs
challenge has its 2 items. -/
def challengeOk (l : Lesson) : Prop :=
  match l with
  | Lesson.error _ => True
  | Lesson.translation _ _ ca opts => opts.length = 4 ∧ ca ∈ opts ∧ opts.Nodup
  | Lesson.matchingPairs _ items => items.length = 2

/-! ### Operating-condition and invariant predicates -/

/-- The storage collaborator functions normally: the global is defined and
neither reads nor writes reject. -/
def healthy (s : Store) : Prop :=
  s.available = true ∧ s.readFails = false ∧ s.writeFails = false

/-- The persisted mapping of a store (`{}` when the cell was never written). -/
def mem (s : Store) : WordMemory := s.cell.getD []

/-- Every stored record has a non-negative score. -/
def nonneg (m : WordMemory) : Prop :=
  ∀ k rec, getRec m k = some rec → 0 ≤ rec.score

/-- The cell contents reachable from the fresh store by any sequence of
`saveWordMemory` / `addWordMemory` calls, under arbitrary availability and
failure conditions, identifiers, ratings and clock values. -/
inductive ReachableCell : Option WordMemory → Prop where
  | init : ReachableCell none
  | save (c : Option WordMemory) (av rf wf : Bool) (id : String) (r : Rating) (now : Int) :
      ReachableCell c → ReachableCell (saveWordMemory ⟨av, rf, wf, c⟩ id r now).cell
  | add (c : Option WordMemory) (av rf wf : Bool) (id : String) (now : Int) :
      ReachableCell c → ReachableCell (addWordMemory ⟨av, rf, wf, c⟩ id now).cell

/-! ### Lesson field extractors and concrete example data -/

/-- The `correctAnswer` field of a translation challenge (`""` otherwise). -/
def lessonCorrect : Lesson → String
  | Lesson.translation _ _ ca _ => ca
  | _ => ""

/-- The `signVideo` field of a translation challenge (`""` otherwise). -/
def lessonVideo : Lesson → String
  | Lesson.translation _ sv _ _ => sv
  | _ => ""

/-- The `options` field of a translation challenge (`[]` otherwise). -/
def optionsOf : Lesson → List String
  | Lesson.translation _ _ _ o => o
  | _ => []

/-- The `items` field of a matching-pairs challenge (`[]` otherwise). -/
def itemsOf : Lesson → List PairItem
  | Lesson.matchingPairs _ items => items
  | _ => []

/-- The word at position `i` of the shuffled pool (JS `shuffledWords[i]`). -/
def swAt (words : List Word) (rng : List Nat) (i : Nat) : Word :=
  ((shuffleArray words rng).1).getD i defaultWord

/-- A healthy store whose cell was never written. -/
def store0 : Store := ⟨true, false, false, none⟩

/-- A store whose collaborator is entirely broken. -/
def storeBroken : Store := ⟨false, true, true, some [("k", ⟨2, 3⟩)]⟩

def wordA : Word := ⟨"1", "A", "", "vA"⟩

def wordB : Word := ⟨"2", "B", "", "vB"⟩

def wordC : Word := ⟨"3", "C", "", "vC"⟩

def wordD : Word := ⟨"4", "D", "", "vD"⟩

/-- The stored mapping of the spec's concrete selection example:
A(score 3), B(1, lastSeen 200), C(1, 100), D(1, 50). -/
def exMemory : WordMemory :=
  [("A", ⟨3, 10⟩), ("B", ⟨1, 200⟩), ("C", ⟨1, 100⟩), ("D", ⟨1, 50⟩)]

/-- A healthy store holding `exMemory`. -/
def exStore : Store := ⟨true, false, false, some exMemory⟩

/-- A pool of 7 distinct words for the quiz examples. -/
def quizPool : List Word :=
  [⟨"1", "w1", "", "v1"⟩, ⟨"2", "w2", "", "v2"⟩, ⟨"3", "w3", "", "v3"⟩,
   ⟨"4", "w4", "", "v4"⟩, ⟨"5", "w5", "", "v5"⟩, ⟨"6", "w6", "", "v6"⟩,
   ⟨"7", "w7", "", "v7"⟩]

/-- One possible stream of random draws: every draw 0. -/
def rngZeros : List Nat := List.replicate 25 0

/-- Another possible stream of random draws: first draw 1, the rest 0. -/
def rngOne : List Nat := 1 :: List.replicate 24 0

/-! Stages of `generateQuizLessons`, named for the characterization of the
quiz structure: each shuffle call of the source, with the random-draw stream
threaded in execution order. -/

/-- Stage 0: the pool shuffle `shuffleArray([...words])`. -/
def qPool (words : List Word) (rng : List Nat) : List Word × List Nat :=
  shuffleArray words rng

/-- Stage 1: the option shuffle of translation lesson 1 (correct answer at
shuffled position 0, decoys at shuffled positions 1, 2, 3). -/
def qOpts1 (words : List Word) (rng : List Nat) : List String × List Nat :=
  shuffleArray [(swAt words rng 0).word, (swAt words rng 1).word,
    (swAt words rng 2).word, (swAt words rng 3).word] (qPool words rng).2

/-- Stage 2: the item shuffle of pair lesson 2 (shuffled positions 1, 2). -/
def qItems2 (words : List Word) (rng : List Nat) : List PairItem × List Nat :=
  shuffleArray [⟨(swAt words rng 1).signVideo, (swAt words rng 1).word, "1"⟩,
    ⟨(swAt words rng 2).signVideo, (swAt words rng 2).word, "2"⟩] (qOpts1 words rng).2

/-- Stage 3: the option shuffle of translation lesson 3 (correct answer at
shuffled position 3, decoys at shuffled positions 4, 5, 6). -/
def qOpts3 (words : List Word) (rng : List Nat) : List String × List Nat :=
  shuffleArray [(swAt words rng 3).word, (swAt words rng 4).word,
    (swAt words rng 5).word, (swAt words rng 6).word] (qItems2 words rng).2

/-- Stage 4: the item shuffle of pair lesson 4 (shuffled positions 4, 5). -/
def qItems4 (words : List Word) (rng : List Nat) : List PairItem × List Nat :=
  shuffleArray [⟨(swAt words rng 4).signVideo, (swAt words rng 4).word, "3"⟩,
    ⟨(swAt words rng 5).signVideo, (swAt words rng 5).word, "4"⟩] (qOpts3 words rng).2

/-- Stage 5: the option shuffle of translation lesson 5 (correct answer at
shuffled position 6, decoys at shuffled positions 0, 1, 4). -/
def qOpts5 (words : List Word) (rng : List Nat) : List String × List Nat :=
  shuffleArray [(swAt words rng 6).word, (swAt words rng 0).word,
    (swAt words rng 1).word, (swAt words rng 4).word] (qItems4 words rng).2

/-- Stage 6: the item shuffle of pair lesson 6 (shuffled positions 0, 6). -/
def qItems6 (words : List Word) (rng : List Nat) : List PairItem × List Nat :=
  shuffleArray [⟨(swAt words rng 0).signVideo, (swAt words rng 0).word, "5"⟩,
    ⟨(swAt words rng 6).signVideo, (swAt words rng 6).word, "6"⟩] (qOpts5 words rng).2

/-! ### Association-list lemmas -/

theorem getRec_setRec_self (m : WordMemory) (k : String) (v : MemRec) :
    getRec (setRec m k v) k = some v := by
  induction m with
  | nil => simp [getRec, setRec]
  | cons p rest ih =>
    by_cases h : p.1 = k
    · simp [getRec, setRec, h]
    · simp [getRec, setRec, h, ih]

theorem getRec_setRec_ne (m : WordMemory) (k k' : String) (v : MemRec)
    (h : k' ≠ k) : getRec (setRec m k v) k' = getRec m k' := by
  induction m with
  | nil =>
    simp only [setRec, getRec]
    rw [if_neg (fun hh => h hh.symm)]
  | cons p rest ih =>
    by_cases hp : p.1 = k
    · simp only [setRec, if_pos hp, getRec]
      rw [if_neg (fun hh => h hh.symm), if_neg (by rw [hp]; exact fun hh => h hh.symm)]
    · simp only [setRec, if_neg hp, getRec, ih]

theorem nonneg_setRec (m : WordMemory) (k : String) (v : MemRec)
    (hm : nonneg m) (hv : 0 ≤ v.score) : nonneg (setRec m k v) := by
  intro k' r hr
  by_cases h : k' = k
  · subst h
    rw [getRec_setRec_self] at hr
    cases hr
    exact hv
  · rw [getRec_setRec_ne m k k' v h] at hr
    exact hm k' r hr

theorem effScore_nonneg (m : WordMemory) (k : String) (hm : nonneg m) :
    0 ≤ effScore m k := by
  unfold effScore
  cases hr : getRec m k with
  | none => simp
  | some r =>
    by_cases h : r.score = 0
    · simp [h]
    · simpa [h] using hm k r hr

theorem nextScore_nonneg (r : Rating) (cur : Int) (h : 0 ≤ cur) :
    0 ≤ nextScore r cur := by
  cases r <;> simp [nextScore] <;> omega

theorem nonneg_nil : nonneg ([] : WordMemory) := by
  intro k r hr
  simp [getRec] at hr

/-! ### Store-boundary lemmas -/

theorem getMemoryScores_snd (s : Store) : (getMemoryScores s).2 = s := by
  unfold getMemoryScores getItem
  by_cases ha : s.available = false
  · simp [ha]
  · by_cases hr : s.readFails
    · simp [ha, hr]
    · cases hc : s.cell <;> simp [ha, hr, hc]

theorem getMemoryScores_fst_healthy (s : Store) (h : healthy s) :
    (getMemoryScores s).1 = mem s := by
  obtain ⟨ha, hr, -⟩ := h
  unfold getMemoryScores getItem mem
  cases hc : s.cell <;> simp [ha, hr, hc]

theorem jsTrim_empty : jsTrim "" = "" := by decide

theorem saveWordMemory_eq_healthy (s : Store) (id : String) (r : Rating) (now : Int)
    (h : healthy s) (hid : jsTrim id ≠ "") :
    saveWordMemory s id r now =
      { s with cell := some (setRec (mem s) id
          ⟨nextScore r (effScore (mem s) id), now⟩) } := by
  obtain ⟨ha, hrf, hwf⟩ := h
  have hid0 : id ≠ "" := by
    intro hh
    exact hid (hh ▸ jsTrim_empty)
  obtain ⟨av, rf, wf, c⟩ := s
  replace ha : av = true := ha
  replace hrf : rf = false := hrf
  replace hwf : wf = false := hwf
  subst ha hrf hwf
  cases c <;> simp [saveWordMemory, getMemoryScores, getItem, setItem, mem, hid0, hid]

theorem saveWordMemory_eq_guard (s : Store) (id : String) (r : Rating) (now : Int)
    (hid : id = "" ∨ jsTrim id = "") :
    saveWordMemory s id r now = s := by
  unfold saveWordMemory
  by_cases ha : s.available = false
  · simp [ha]
  · rw [if_neg ha, if_pos hid, getMemoryScores_snd]

theorem addWordMemory_eq_healthy_absent (s : Store) (id : String) (now : Int)
    (h : healthy s) (habs : getRec (mem s) id = none) :
    addWordMemory s id now =
      { s with cell := some (setRec (mem s) id ⟨0, now⟩) } := by
  obtain ⟨ha, hrf, hwf⟩ := h
  obtain ⟨av, rf, wf, c⟩ := s
  replace ha : av = true := ha
  replace hrf : rf = false := hrf
  replace hwf : wf = false := hwf
  subst ha hrf hwf
  simp only [mem] at habs
  cases c <;>
    simp [addWordMemory, getMemoryScores, getItem, setItem, mem, habs] at habs ⊢

theorem addWordMemory_eq_present (s : Store) (id : String) (now : Int)
    (hrf : s.readFails = false) (hpres : (getRec (mem s) id).isSome) :
    addWordMemory s id now = s := by
  obtain ⟨av, rf, wf, c⟩ := s
  replace hrf : rf = false := hrf
  subst hrf
  cases av with
  | false => simp [addWordMemory]
  | true =>
    cases c with
    | none => simp [mem, getRec] at hpres
    | some m =>
      simp only [mem, Option.getD] at hpres
      simp [addWordMemory, getMemoryScores, getItem, hpres]

/-- Under arbitrary availability/failure conditions, `saveWordMemory` either
leaves the cell alone or writes a single-record update of the mapping it
managed to read (the stored mapping, or `[]` when the read failed or the
cell was empty). -/
theorem saveWordMemory_cell_cases (s : Store) (id : String) (r : Rating) (now : Int) :
    (saveWordMemory s id r now).cell = s.cell ∨
      ∃ m0, (m0 = [] ∨ m0 = mem s) ∧
        (saveWordMemory s id r now).cell =
          some (setRec m0 id ⟨nextScore r (effScore m0 id), now⟩) := by
  obtain ⟨av, rf, wf, c⟩ := s
  cases av with
  | false => left; simp [saveWordMemory]
  | true =>
    by_cases hid : id = "" ∨ jsTrim id = ""
    · left
      rw [saveWordMemory_eq_guard _ _ _ _ hid]
    · cases wf with
      | true =>
        left
        cases rf <;> cases c <;>
          simp [saveWordMemory, getMemoryScores, getItem, setItem, hid]
      | false =>
        right
        cases rf with
        | true => exact ⟨[], Or.inl rfl, by
            simp [saveWordMemory, getMemoryScores, getItem, setItem, hid]⟩
        | false =>
          refine ⟨mem ⟨true, false, false, c⟩, Or.inr rfl, ?_⟩
          cases c <;>
            simp [saveWordMemory, getMemoryScores, getItem, setItem, mem, hid]

/-- The same case analysis for `addWordMemory`. -/
theorem addWordMemory_cell_cases (s : Store) (id : String) (now : Int) :
    (addWordMemory s id now).cell = s.cell ∨
      ∃ m0, (m0 = [] ∨ m0 = mem s) ∧
        (addWordMemory s id now).cell = some (setRec m0 id ⟨0, now⟩) := by
  obtain ⟨av, rf, wf, c⟩ := s
  cases av with
  | false => left; simp [addWordMemory]
  | true =>
    cases rf with
    | true =>
      cases wf with
      | true => left; simp [addWordMemory, getMemoryScores, getItem, setItem, getRec]
      | false =>
        right
        exact ⟨[], Or.inl rfl, by
          simp [addWordMemory, getMemoryScores, getItem, setItem, getRec]⟩
    | false =>
      by_cases hpres : (getRec ((⟨true, false, wf, c⟩ : Store).cell.getD []) id).isSome
      · left
        rw [addWordMemory_eq_present _ _ _ rfl hpres]
      · cases wf with
        | true =>
          left
          cases c <;>
            simp only [mem, Option.getD] at hpres <;>
            simp [addWordMemory, getMemoryScores, getItem, setItem, hpres]
        | false =>
          right
          refine ⟨mem ⟨true, false, false, c⟩, Or.inr rfl, ?_⟩
          cases c <;>
            simp only [mem, Option.getD] at hpres <;>
            simp [addWordMemory, getMemoryScores, getItem, setItem, mem, hpres]

/-- Every reachable cell content satisfies the non-negativity invariant. -/
theorem reachable_nonneg (c : Option WordMemory) (h : ReachableCell c) :
    nonneg (c.getD []) := by
  induction h with
  | init => exact nonneg_nil
  | save c av rf wf id r now _ ih =>
    rcases saveWordMemory_cell_cases ⟨av, rf, wf, c⟩ id r now with hc | ⟨m0, hm0, hc⟩
    · rw [hc]; exact ih
    · rw [hc]
      have hnn : nonneg m0 := by
        rcases hm0 with h0 | h0
        · rw [h0]; exact nonneg_nil
        · rw [h0]; exact ih
      exact nonneg_setRec _ _ _ hnn
        (nextScore_nonneg r _ (effScore_nonneg m0 id hnn))
  | add c av rf wf id now _ ih =>
    rcases addWordMemory_cell_cases ⟨av, rf, wf, c⟩ id now with hc | ⟨m0, hm0, hc⟩
    · rw [hc]; exact ih
    · rw [hc]
      have hnn : nonneg m0 := by
        rcases hm0 with h0 | h0
        · rw [h0]; exact nonneg_nil
        · rw [h0]; exact ih
      exact nonneg_setRec _ _ _ hnn le_rfl

/-! ### Stable-sort bridge between the code comparator and the spec order -/

theorem effScore_eq_specScore (m : WordMemory) (k : String) :
    effScore m k = specScore m k := by
  unfold effScore specScore
  cases getRec m k with
  | none => rfl
  | some r => by_cases h : r.score = 0 <;> simp [h]

theorem effLastSeen_eq_specLastSeen (m : WordMemory) (k : String) :
    effLastSeen m k = specLastSeen m k := by
  unfold effLastSeen specLastSeen
  cases getRec m k with
  | none => rfl
  | some r => by_cases h : r.lastSeen = 0 <;> simp [h]

theorem withIdx_map_snd (n : Nat) (l : List α) :
    (withIdx n l).map Prod.snd = l := by
  induction l generalizing n with
  | nil => rfl
  | cons a t ih => simp [withIdx, ih]

theorem withIdx_mem_le (n : Nat) (l : List α) :
    ∀ p ∈ withIdx n l, n ≤ p.1 := by
  induction l generalizing n with
  | nil => intro p hp; simp [withIdx] at hp
  | cons a t ih =>
    intro p hp
    rw [withIdx, List.mem_cons] at hp
    rcases hp with h | h
    · rw [h]
    · exact Nat.le_of_succ_le (ih (n + 1) p h)

theorem withIdx_pairwise (n : Nat) (l : List α) :
    List.Pairwise (fun p q => p.1 < q.1) (withIdx n l) := by
  induction l generalizing n with
  | nil => exact List.Pairwise.nil
  | cons a t ih =>
    rw [withIdx, List.pairwise_cons]
    exact ⟨fun p hp =>
      Nat.lt_of_lt_of_le (Nat.lt_succ_self n) (withIdx_mem_le (n + 1) t p hp),
      ih (n + 1)⟩

/-- On elements whose input positions are in increasing order, the spec's
three-way lexicographic test agrees with the code's comparator test. -/
theorem specLeb_eq_cmpLe (i j : Nat) (x y : ScoredWord) (hij : i < j) :
    specLeb (i, x) (j, y) = cmpLe x y := by
  rw [Bool.eq_iff_iff]
  by_cases hs : x.score = y.score
  · simp only [specLeb, cmpLe, hs]
    simp [Nat.le_of_lt hij]
    omega
  · simp [specLeb, cmpLe, hs]

theorem orderedInsert_cons_eq {α : Type} (r : α → α → Prop) [DecidableRel r]
    (a b : α) (l : List α) :
    List.orderedInsert r a (b :: l) =
      if r a b then a :: b :: l else b :: List.orderedInsert r a l := by
  rw [List.orderedInsert.eq_def]

theorem orderedInsert_sndMap (i : Nat) (x : ScoredWord)
    (s : List (Nat × ScoredWord)) (h : ∀ p ∈ s, i < p.1) :
    (List.orderedInsert specLE (i, x) s).map Prod.snd =
      List.orderedInsert wordLE x (s.map Prod.snd) := by
  induction s with
  | nil => simp [List.orderedInsert]
  | cons q t ih =>
    obtain ⟨j, y⟩ := q
    have hij : i < j := h (j, y) (List.mem_cons_self _ _)
    have heq : specLE (i, x) (j, y) ↔ wordLE x y := by
      unfold specLE wordLE
      rw [specLeb_eq_cmpLe i j x y hij]
    by_cases hle : wordLE x y
    · rw [orderedInsert_cons_eq, if_pos (heq.mpr hle)]
      simp only [List.map_cons]
      rw [orderedInsert_cons_eq, if_pos hle]
    · rw [orderedInsert_cons_eq, if_neg (fun hh => hle (heq.mp hh))]
      simp only [List.map_cons]
      rw [orderedInsert_cons_eq, if_neg hle]
      rw [ih (fun p hp => h p (List.mem_cons_of_mem _ hp))]

/-- A stable sort by the spec's index-refined total order projects to the
stable sort by the code's comparator: "ties beyond `lastSeen` retain
candidate input order" is exactly what the comparator sort does. -/
theorem insertionSort_sndMap (l : List (Nat × ScoredWord))
    (h : List.Pairwise (fun p q => p.1 < q.1) l) :
    (List.insertionSort specLE l).map Prod.snd =
      List.insertionSort wordLE (l.map Prod.snd) := by
  induction l with
  | nil => rfl
  | cons q t ih =>
    obtain ⟨i, x⟩ := q
    rw [List.pairwise_cons] at h
    rw [List.insertionSort, List.map_cons, List.insertionSort]
    rw [orderedInsert_sndMap i x (List.insertionSort specLE t)
      (fun p hp => h.1 p ((List.perm_insertionSort specLE t).mem_iff.mp hp))]
    rw [ih h.2]

/-! ### Shuffle permutation lemmas -/

theorem listSwap_perm {α : Type} [DecidableEq α] (l : List α) (i j : Nat) :
    (listSwap l i j).Perm l := by
  unfold listSwap
  cases hi : l[i]? with
  | none => exact List.Perm.refl l
  | some a =>
    cases hj : l[j]? with
    | none => exact List.Perm.refl l
    | some b =>
      have hi' : i < l.length := by
        by_contra hlen
        rw [List.getElem?_eq_none (Nat.le_of_not_lt hlen)] at hi
        cases hi
      have hj' : j < l.length := by
        by_contra hlen
        rw [List.getElem?_eq_none (Nat.le_of_not_lt hlen)] at hj
        cases hj
      have ha : l[i] = a := by
        have := List.getElem?_eq_getElem hi'
        rw [hi] at this
        exact (Option.some_injective _ this.symm)
      have hb : l[j] = b := by
        have := List.getElem?_eq_getElem hj'
        rw [hj] at this
        exact (Option.some_injective _ this.symm)
      rw [List.perm_iff_count]
      intro x
      have hmema : a ∈ l := ha ▸ List.getElem_mem hi'
      have hj2 : j < (l.set i b).length := by
        rw [List.length_set]
        exact hj'
      have hlj : (l.set i b)[j] = b := by
        rw [List.getElem_set]
        by_cases hij : i = j
        · rw [if_pos hij]
        · rw [if_neg hij, hb]
      have hc1 : ∀ y : α, List.count y (l.set i b) =
          (List.count y l - if l[i] = y then 1 else 0) + if b = y then 1 else 0 := by
        intro y
        rw [List.count_set b y l i hi']
        simp
      have hc2 : List.count x ((l.set i b).set j a) =
          (List.count x (l.set i b) - if (l.set i b)[j] = x then 1 else 0) +
            if a = x then 1 else 0 := by
        rw [List.count_set a x (l.set i b) j hj2]
        simp
      have hcount : (if a = x then 1 else 0) ≤ List.count x l := by
        by_cases hax : a = x
        · rw [if_pos hax]
          exact List.count_pos_iff.mpr (hax ▸ hmema)
        · rw [if_neg hax]
          exact Nat.zero_le _
      rw [hc2, hc1 x]
      simp only [hlj, ha]
      by_cases hax : a = x <;> by_cases hbx : b = x
      · rw [if_pos hax] at hcount
        rw [if_pos hax, if_pos hbx]
        omega
      · rw [if_pos hax] at hcount
        rw [if_pos hax, if_neg hbx]
        omega
      · rw [if_neg hax] at hcount
        rw [if_neg hax, if_pos hbx]
        omega
      · rw [if_neg hax] at hcount
        rw [if_neg hax, if_neg hbx]
        omega

theorem fisherYates_perm {α : Type} [DecidableEq α] (ci : Nat) (rng : List Nat)
    (l : List α) : ((fisherYates l ci rng).1).Perm l := by
  induction ci generalizing l rng with
  | zero => cases rng <;> exact List.Perm.refl l
  | succ k ih =>
    cases rng with
    | nil => exact List.Perm.refl l
    | cons r rs =>
      rw [fisherYates]
      exact (ih rs (listSwap l k (r % (k + 1)))).trans (listSwap_perm l k (r % (k + 1)))

theorem shuffleArray_perm {α : Type} [DecidableEq α] (l : List α) (rng : List Nat) :
    ((shuffleArray l rng).1).Perm l :=
  fisherYates_perm l.length rng l

theorem shuffleArray_length {α : Type} [DecidableEq α] (l : List α) (rng : List Nat) :
    (shuffleArray l rng).1.length = l.length :=
  (shuffleArray_perm l rng).length_eq

/-- Distinct positions of a list whose image under `f` has no duplicates give
distinct `f`-values. -/
theorem nodup_map_getElem_ne {α β : Type} (l : List α) (f : α → β)
    (h : (l.map f).Nodup) (i j : Nat) (hi : i < l.length) (hj : j < l.length)
    (hij : i ≠ j) : f l[i] ≠ f l[j] := by
  intro heq
  have hi' : i < (l.map f).length := by simpa using hi
  have hj' : j < (l.map f).length := by simpa using hj
  have : (l.map f).get ⟨i, hi'⟩ = (l.map f).get ⟨j, hj'⟩ := by
    simp only [List.get_eq_getElem, List.getElem_map]
    exact heq
  have := List.nodup_iff_injective_get.mp h this
  exact hij (congrArg Fin.val this)

/-! ### Claim theorems -/

/-- C1: rating policy of `rateItem` (`saveWordMemory`): on a functioning
store and a valid identifier, `Well` stores score `s+1`, `Badly` stores
`max 0 (s-2)`, `Partly` stores `s` unchanged, where `s` is the current
effective score (0 when no record exists); in every branch the stored
`lastSeen` becomes the current time, and the updated record is written back
to the store. -/
theorem claim_C1 (s : Store) (id : String) (now : Int) (h : healthy s)
    (hid : jsTrim id ≠ "") :
    getRec (mem (saveWordMemory s id Rating.Well now)) id =
        some ⟨effScore (mem s) id + 1, now⟩
    ∧ getRec (mem (saveWordMemory s id Rating.Badly now)) id =
        some ⟨max 0 (effScore (mem s) id - 2), now⟩
    ∧ getRec (mem (saveWordMemory s id Rating.Partly now)) id =
        some ⟨effScore (mem s) id, now⟩
    ∧ ∀ r : Rating, (saveWordMemory s id r now).cell =
        some (setRec (mem s) id ⟨nextScore r (effScore (mem s) id), now⟩) := by
  refine ⟨?_, ?_, ?_, fun r => ?_⟩
  · rw [saveWordMemory_eq_healthy s id Rating.Well now h hid]
    exact getRec_setRec_self _ _ _
  · rw [saveWordMemory_eq_healthy s id Rating.Badly now h hid]
    exact getRec_setRec_self _ _ _
  · rw [saveWordMemory_eq_healthy s id Rating.Partly now h hid]
    exact getRec_setRec_self _ _ _
  · rw [saveWordMemory_eq_healthy s id r now h hid]

theorem claim_C1_witness :
    healthy store0 ∧ jsTrim "cat" ≠ ""
    ∧ (getRec (mem (saveWordMemory store0 "cat" Rating.Well 100)) "cat" =
          some ⟨effScore (mem store0) "cat" + 1, 100⟩
        ∧ getRec (mem (saveWordMemory store0 "cat" Rating.Badly 100)) "cat" =
          some ⟨max 0 (effScore (mem store0) "cat" - 2), 100⟩
        ∧ getRec (mem (saveWordMemory store0 "cat" Rating.Partly 100)) "cat" =
          some ⟨effScore (mem store0) "cat", 100⟩
        ∧ ∀ r : Rating, (saveWordMemory store0 "cat" r 100).cell =
          some (setRec (mem store0) "cat"
            ⟨nextScore r (effScore (mem store0) "cat"), 100⟩)) :=
  ⟨⟨rfl, rfl, rfl⟩, by decide, claim_C1 store0 "cat" 100 ⟨rfl, rfl, rfl⟩ (by decide)⟩

/-- C2: non-negativity invariant: every record stored in any cell reachable
by `initializeItem`/`rateItem` operations has a score `≥ 0`; moreover a
`Badly` rating of an item whose effective score is 0 stores 0 again (the
floor keeps it at 0, never below). -/
theorem claim_C2 :
    (∀ c, ReachableCell c → nonneg (c.getD []))
    ∧ ∀ (s : Store) (id : String) (now : Int), healthy s → jsTrim id ≠ "" →
        effScore (mem s) id = 0 →
        effScore (mem (saveWordMemory s id Rating.Badly now)) id = 0 := by
  constructor
  · exact reachable_nonneg
  · intro s id now h hid h0
    rw [saveWordMemory_eq_healthy s id Rating.Badly now h hid]
    show effScore (setRec (mem s) id
      ⟨nextScore Rating.Badly (effScore (mem s) id), now⟩) id = 0
    rw [h0]
    unfold effScore
    rw [getRec_setRec_self]
    norm_num [nextScore]

theorem claim_C2_witness :
    nonneg ((none : Option WordMemory).getD [])
    ∧ effScore (mem (saveWordMemory store0 "cat" Rating.Badly 7)) "cat" = 0 :=
  ⟨claim_C2.1 none ReachableCell.init,
   claim_C2.2 store0 "cat" 7 ⟨rfl, rfl, rfl⟩ (by decide) (by decide)⟩

/-- C3: idempotence of `initializeItem` (`addWordMemory`) on a functioning
store: when a record exists the call leaves the store unchanged; when none
exists it creates `{score: 0, lastSeen: now}`; a second awaited call changes
nothing more. -/
theorem claim_C3 (s : Store) (id : String) (now now2 : Int) (h : healthy s) :
    ((getRec (mem s) id).isSome → addWordMemory s id now = s)
    ∧ (getRec (mem s) id = none →
        (addWordMemory s id now).cell = some (setRec (mem s) id ⟨0, now⟩)
        ∧ getRec (mem (addWordMemory s id now)) id = some ⟨0, now⟩)
    ∧ addWordMemory (addWordMemory s id now) id now2 = addWordMemory s id now := by
  obtain ⟨ha, hrf, hwf⟩ := h
  refine ⟨fun hp => addWordMemory_eq_present s id now hrf hp, fun habs => ?_, ?_⟩
  · rw [addWordMemory_eq_healthy_absent s id now ⟨ha, hrf, hwf⟩ habs]
    exact ⟨rfl, getRec_setRec_self _ _ _⟩
  · by_cases hp : (getRec (mem s) id).isSome
    · rw [addWordMemory_eq_present s id now hrf hp,
          addWordMemory_eq_present s id now2 hrf hp]
    · have habs : getRec (mem s) id = none := Option.not_isSome_iff_eq_none.mp hp
      rw [addWordMemory_eq_healthy_absent s id now ⟨ha, hrf, hwf⟩ habs]
      refine addWordMemory_eq_present _ id now2 ?_ ?_
      · exact hrf
      · show (getRec (setRec (mem s) id ⟨0, now⟩) id).isSome
        rw [getRec_setRec_self]
        rfl

theorem claim_C3_witness :
    healthy store0
    ∧ (((getRec (mem store0) "cat").isSome → addWordMemory store0 "cat" 5 = store0)
        ∧ (getRec (mem store0) "cat" = none →
            (addWordMemory store0 "cat" 5).cell =
              some (setRec (mem store0) "cat" ⟨0, 5⟩)
            ∧ getRec (mem (addWordMemory store0 "cat" 5)) "cat" = some ⟨0, 5⟩)
        ∧ addWordMemory (addWordMemory store0 "cat" 5) "cat" 9 =
            addWordMemory store0 "cat" 5) :=
  ⟨⟨rfl, rfl, rfl⟩, claim_C3 store0 "cat" 5 9 ⟨rfl, rfl, rfl⟩⟩

/-- C4 counterexample: the claim asserts that `initializeItem`
(`addWordMemory`) rejects empty identifiers as a no-op, but the source has
no validity check there: on a healthy empty store, `addWordMemory` with the
empty identifier changes the store and creates a record keyed `""`. -/
theorem claim_C4_counterexample :
    addWordMemory store0 "" 5 ≠ store0
    ∧ getRec (mem (addWordMemory store0 "" 5)) "" = some ⟨0, 5⟩ := by
  constructor <;> decide

/-- C4 amended: `rateItem` (`saveWordMemory`) with an identifier that is
empty or whitespace-only after trimming is a no-op on every store; but
`initializeItem` (`addWordMemory`) performs no identifier validation — on a
functioning store with no record for that identifier it creates a record
even for an empty/whitespace identifier. -/
theorem claim_C4_amended (s : Store) (id : String) (r : Rating) (now now2 : Int)
    (hid : id = "" ∨ jsTrim id = "") :
    saveWordMemory s id r now = s
    ∧ (healthy s → getRec (mem s) id = none →
        getRec (mem (addWordMemory s id now2)) id = some ⟨0, now2⟩) := by
  refine ⟨saveWordMemory_eq_guard s id r now hid, fun h habs => ?_⟩
  rw [addWordMemory_eq_healthy_absent s id now2 h habs]
  exact getRec_setRec_self _ _ _

theorem claim_C4_amended_witness :
    ((" " : String) = "" ∨ jsTrim " " = "")
    ∧ saveWordMemory store0 " " Rating.Well 1 = store0
    ∧ (healthy store0 → getRec (mem store0) " " = none →
        getRec (mem (addWordMemory store0 " " 5)) " " = some ⟨0, 5⟩) :=
  ⟨Or.inr (by decide),
   (claim_C4_amended store0 " " Rating.Well 1 5 (Or.inr (by decide))).1,
   (claim_C4_amended store0 " " Rating.Well 1 5 (Or.inr (by decide))).2⟩

/-- C5: storage-failure containment: when the collaborator is absent the
read yields the empty mapping and both writes are no-ops; when reads reject
the read yields the empty mapping; when writes reject both write operations
leave the store unchanged; and the selection read on an empty pool yields
the empty list.  (No operation ever propagates an exception: each public
operation is a total function because every raised `JsError` is caught at
its boundary.) -/
theorem claim_C5 (s : Store) (id : String) (r : Rating) (now : Int) (count : Nat) :
    (s.available = false →
      (getMemoryScores s).1 = []
      ∧ saveWordMemory s id r now = s
      ∧ addWordMemory s id now = s)
    ∧ (s.readFails = true → (getMemoryScores s).1 = [])
    ∧ (s.writeFails = true →
        saveWordMemory s id r now = s ∧ addWordMemory s id now = s)
    ∧ (getWordsForSession s [] count).1 = [] := by
  refine ⟨fun ha => ⟨?_, ?_, ?_⟩, fun hr => ?_, fun hw => ⟨?_, ?_⟩, ?_⟩
  · simp [getMemoryScores, ha]
  · simp [saveWordMemory, ha]
  · simp [addWordMemory, ha]
  · unfold getMemoryScores getItem
    by_cases ha : s.available = false
    · simp [ha]
    · simp [ha, hr]
  · obtain ⟨av, rf, wf, c⟩ := s
    replace hw : wf = true := hw
    subst hw
    cases av with
    | false => simp [saveWordMemory]
    | true =>
      by_cases hid : id = "" ∨ jsTrim id = ""
      · exact saveWordMemory_eq_guard _ _ _ _ hid
      · cases rf <;> cases c <;>
          simp [saveWordMemory, getMemoryScores, getItem, setItem, hid]
  · obtain ⟨av, rf, wf, c⟩ := s
    replace hw : wf = true := hw
    subst hw
    cases av with
    | false => simp [addWordMemory]
    | true =>
      cases rf <;> cases c <;>
        simp [addWordMemory, getMemoryScores, getItem, setItem]
  · simp [getWordsForSession]

theorem claim_C5_witness :
    (getMemoryScores storeBroken).1 = []
    ∧ saveWordMemory storeBroken "k" Rating.Well 9 = storeBroken
    ∧ addWordMemory storeBroken "k" 9 = storeBroken
    ∧ (getWordsForSession storeBroken [] 4).1 = [] := by
  have h := claim_C5 storeBroken "k" Rating.Well 9 4
  exact ⟨(h.1 rfl).1, (h.1 rfl).2.1, (h.1 rfl).2.2, h.2.2.2⟩

/-- C7: `selectSession` (`getWordsForSession`) is read-only with respect to
the score store: the store after the call is the store before it, hence the
stored mapping agrees on every key. -/
theorem claim_C7 (s : Store) (cands : List Word) (count : Nat) :
    (getWordsForSession s cands count).2 = s
    ∧ ∀ k, getRec (mem (getWordsForSession s cands count).2) k =
        getRec (mem s) k := by
  have h2 : (getWordsForSession s cands count).2 = s := by
    unfold getWordsForSession
    by_cases h0 : cands.length = 0
    · simp [h0]
    · by_cases h1 : cands.length ≤ count
      · simp [h0, h1]
      · simp [h0, h1, getMemoryScores_snd]
  exact ⟨h2, fun k => by rw [h2]⟩

theorem claim_C7_witness :
    (getWordsForSession exStore [wordA, wordB, wordC, wordD] 2).2 = exStore
    ∧ ∀ k, getRec (mem (getWordsForSession exStore [wordA, wordB, wordC, wordD] 2).2) k =
        getRec (mem exStore) k :=
  claim_C7 exStore [wordA, wordB, wordC, wordD] 2

/-- C10: per-key frame property of the writes: on a functioning store, both
`rateItem` (`saveWordMemory`) and `initializeItem` (`addWordMemory`) leave
the record of every key other than the written identifier unchanged. -/
theorem claim_C10 (s : Store) (id k : String) (r : Rating) (now : Int)
    (h : healthy s) (hid : jsTrim id ≠ "") (hk : k ≠ id) :
    getRec (mem (saveWordMemory s id r now)) k = getRec (mem s) k
    ∧ getRec (mem (addWordMemory s id now)) k = getRec (mem s) k := by
  obtain ⟨ha, hrf, hwf⟩ := h
  constructor
  · rw [saveWordMemory_eq_healthy s id r now ⟨ha, hrf, hwf⟩ hid]
    exact getRec_setRec_ne _ _ _ _ hk
  · by_cases hp : (getRec (mem s) id).isSome
    · rw [addWordMemory_eq_present s id now hrf hp]
    · rw [addWordMemory_eq_healthy_absent s id now ⟨ha, hrf, hwf⟩
        (Option.not_isSome_iff_eq_none.mp hp)]
      exact getRec_setRec_ne _ _ _ _ hk

theorem claim_C10_witness :
    healthy exStore ∧ jsTrim "A" ≠ "" ∧ ("B" : String) ≠ "A"
    ∧ getRec (mem (saveWordMemory exStore "A" Rating.Well 42)) "B" =
        getRec (mem exStore) "B"
    ∧ getRec (mem (addWordMemory exStore "A" 42)) "B" = getRec (mem exStore) "B" :=
  ⟨⟨rfl, rfl, rfl⟩, by decide, by decide,
   (claim_C10 exStore "A" "B" Rating.Well 42 ⟨rfl, rfl, rfl⟩ (by decide) (by decide)).1,
   (claim_C10 exStore "A" "B" Rating.Well 42 ⟨rfl, rfl, rfl⟩ (by decide) (by decide)).2⟩

/-- C6: `selectSession` (`getWordsForSession`) returns `[]` on an empty
candidate list, returns the candidates unchanged when there are at most
`count` of them, and otherwise refines the spec's description: annotate
each candidate with its stored score and `lastSeen` (defaulting to 0), rank
by the stable total order (ascending score, then ascending `lastSeen`, then
input position) and take the first `count`. -/
theorem claim_C6 (s : Store) (cands : List Word) (count : Nat) (h : healthy s) :
    (cands = [] → (getWordsForSession s cands count).1 = [])
    ∧ (cands.length ≤ count → (getWordsForSession s cands count).1 = cands)
    ∧ (getWordsForSession s cands count).1 = selectSessionSpec (mem s) cands count
    ∧ (getWordsForSession exStore [wordA, wordB, wordC, wordD] 2).1 =
        [wordD, wordC] := by
  refine ⟨?_, ?_, ?_, by decide⟩
  · intro h0
    subst h0
    simp [getWordsForSession]
  · intro h1
    unfold getWordsForSession
    by_cases h0 : cands.length = 0
    · rw [if_pos h0]
      have : cands = [] := List.length_eq_zero.mp h0
      rw [this]
    · rw [if_neg h0, if_pos h1]
  · unfold getWordsForSession selectSessionSpec
    by_cases h0 : cands.length = 0
    · rw [if_pos h0, if_pos h0]
    · rw [if_neg h0, if_neg h0]
      by_cases h1 : cands.length ≤ count
      · rw [if_pos h1, if_pos h1]
      · rw [if_neg h1, if_neg h1]
        rw [getMemoryScores_fst_healthy s h]
        have hfg : (fun w => ScoredWord.mk w (effScore (mem s) w.word)
            (effLastSeen (mem s) w.word)) =
            (fun w => ScoredWord.mk w (specScore (mem s) w.word)
              (specLastSeen (mem s) w.word)) := by
          funext w
          rw [effScore_eq_specScore, effLastSeen_eq_specLastSeen]
        simp only []
        rw [hfg]
        rw [show (fun p : Nat × ScoredWord => p.2.w) =
          (ScoredWord.w ∘ Prod.snd) from rfl]
        rw [← List.map_map ScoredWord.w Prod.snd]
        rw [List.map_take Prod.snd]
        rw [insertionSort_sndMap _ (withIdx_pairwise 0 _)]
        rw [withIdx_map_snd]

theorem claim_C6_witness :
    healthy exStore
    ∧ (([] : List Word) = [] →
        (getWordsForSession exStore ([] : List Word) 2).1 = [])
    ∧ (([wordA, wordB, wordC, wordD] : List Word).length ≤ 9 →
        (getWordsForSession exStore [wordA, wordB, wordC, wordD] 9).1 =
          [wordA, wordB, wordC, wordD])
    ∧ (getWordsForSession exStore [wordA, wordB, wordC, wordD] 2).1 =
        selectSessionSpec (mem exStore) [wordA, wordB, wordC, wordD] 2
    ∧ (getWordsForSession exStore [wordA, wordB, wordC, wordD] 2).1 =
        [wordD, wordC] :=
  ⟨⟨rfl, rfl, rfl⟩,
   (claim_C6 exStore [] 2 ⟨rfl, rfl, rfl⟩).1,
   (claim_C6 exStore [wordA, wordB, wordC, wordD] 9 ⟨rfl, rfl, rfl⟩).2.1,
   (claim_C6 exStore [wordA, wordB, wordC, wordD] 2 ⟨rfl, rfl, rfl⟩).2.2.1,
   (claim_C6 exStore [wordA, wordB, wordC, wordD] 2 ⟨rfl, rfl, rfl⟩).2.2.2⟩

theorem mem_exists_getD {α : Type} (l : List α) (w : α) (d : α) (h : w ∈ l) :
    ∃ i, i < l.length ∧ l.getD i d = w := by
  obtain ⟨i, hi, hg⟩ := List.mem_iff_getElem.mp h
  exact ⟨i, hi, by rw [List.getD_eq_getElem l d hi]; exact hg⟩

theorem nodup_map_getD_ne {α β : Type} (l : List α) (f : α → β) (d : α)
    (h : (l.map f).Nodup) (i j : Nat) (hi : i < l.length) (hj : j < l.length)
    (hij : i ≠ j) : f (l.getD i d) ≠ f (l.getD j d) := by
  rw [List.getD_eq_getElem l d hi, List.getD_eq_getElem l d hj]
  exact nodup_map_getElem_ne l f h i j hi hj hij

/-- With at least 7 words, `generateQuizLessons` is exactly the six-lesson
list built from the named stages. -/
theorem generateQuizLessons_eq (words : List Word) (rng : List Nat)
    (h7 : ¬ words.length < 7) :
    generateQuizLessons words rng =
      [Lesson.translation "Translate the sign to the correct word."
         (swAt words rng 0).signVideo (swAt words rng 0).word (qOpts1 words rng).1,
       Lesson.matchingPairs ("Tap the matching pair (" ++ (swAt words rng 1).word
         ++ " & " ++ (swAt words rng 2).word ++ ")") (qItems2 words rng).1,
       Lesson.translation "What is being signed?"
         (swAt words rng 3).signVideo (swAt words rng 3).word (qOpts3 words rng).1,
       Lesson.matchingPairs ("Tap the matching pair (" ++ (swAt words rng 4).word
         ++ " & " ++ (swAt words rng 5).word ++ ")") (qItems4 words rng).1,
       Lesson.translation "Guess the correct translation."
         (swAt words rng 6).signVideo (swAt words rng 6).word (qOpts5 words rng).1,
       Lesson.matchingPairs ("Tap the matching pair (" ++ (swAt words rng 0).word
         ++ " & " ++ (swAt words rng 6).word ++ ")") (qItems6 words rng).1] := by
  simp only [generateQuizLessons, if_neg h7, qOpts1, qItems2, qOpts3, qItems4,
    qOpts5, qItems6, qPool, swAt]

/-- C8: quiz generation precondition and coverage: a pool of fewer than 7
words yields the explicit insufficient-items lesson (no crash, no partial
challenge set); a pool of exactly 7 distinct words yields exactly 6
challenges alternating translation and matching-pairs, every pool word
appears in at least one challenge, every translation challenge carries 4
distinct options including its correct answer, and every pair challenge
carries its 2 items. -/
theorem claim_C8 (w6 w7 : List Word) (ra rb : List Nat)
    (h6 : w6.length < 7) (h7 : w7.length = 7)
    (hnd : (w7.map Word.word).Nodup) :
    generateQuizLessons w6 ra =
      [Lesson.error "Not enough words to generate a quiz."]
    ∧ (generateQuizLessons w7 rb).map lessonType =
        ["translation", "matching_pairs", "translation",
         "matching_pairs", "translation", "matching_pairs"]
    ∧ (∀ w ∈ w7, (generateQuizLessons w7 rb).any
        (fun l => lessonMentions l w.word) = true)
    ∧ (∀ l ∈ generateQuizLessons w7 rb, challengeOk l) := by
  have h7' : ¬ w7.length < 7 := by omega
  have heq := generateQuizLessons_eq w7 rb h7'
  have hlen : (shuffleArray w7 rb).1.length = 7 := by
    rw [shuffleArray_length, h7]
  have hswnd : ((shuffleArray w7 rb).1.map Word.word).Nodup :=
    (((shuffleArray_perm w7 rb).map Word.word).symm).nodup hnd
  have hne : ∀ i j, i < 7 → j < 7 → i ≠ j →
      (swAt w7 rb i).word ≠ (swAt w7 rb j).word := by
    intro i j hi hj hij
    exact nodup_map_getD_ne _ Word.word defaultWord hswnd i j
      (by rw [hlen]; exact hi) (by rw [hlen]; exact hj) hij
  have hp1 : (qOpts1 w7 rb).1.Perm [(swAt w7 rb 0).word, (swAt w7 rb 1).word,
      (swAt w7 rb 2).word, (swAt w7 rb 3).word] := shuffleArray_perm _ _
  have hp2 : (qItems2 w7 rb).1.Perm
      [⟨(swAt w7 rb 1).signVideo, (swAt w7 rb 1).word, "1"⟩,
       ⟨(swAt w7 rb 2).signVideo, (swAt w7 rb 2).word, "2"⟩] := shuffleArray_perm _ _
  have hp3 : (qOpts3 w7 rb).1.Perm [(swAt w7 rb 3).word, (swAt w7 rb 4).word,
      (swAt w7 rb 5).word, (swAt w7 rb 6).word] := shuffleArray_perm _ _
  have hp4 : (qItems4 w7 rb).1.Perm
      [⟨(swAt w7 rb 4).signVideo, (swAt w7 rb 4).word, "3"⟩,
       ⟨(swAt w7 rb 5).signVideo, (swAt w7 rb 5).word, "4"⟩] := shuffleArray_perm _ _
  have hp5 : (qOpts5 w7 rb).1.Perm [(swAt w7 rb 6).word, (swAt w7 rb 0).word,
      (swAt w7 rb 1).word, (swAt w7 rb 4).word] := shuffleArray_perm _ _
  have hp6 : (qItems6 w7 rb).1.Perm
      [⟨(swAt w7 rb 0).signVideo, (swAt w7 rb 0).word, "5"⟩,
       ⟨(swAt w7 rb 6).signVideo, (swAt w7 rb 6).word, "6"⟩] := shuffleArray_perm _ _
  refine ⟨?_, ?_, ?_, ?_⟩
  · simp [generateQuizLessons, h6]
  · rw [heq]
    rfl
  · intro w hw
    have hw2 : w ∈ (shuffleArray w7 rb).1 :=
      ((shuffleArray_perm w7 rb).mem_iff).mpr hw
    obtain ⟨i, hi, hgi⟩ := mem_exists_getD _ w defaultWord hw2
    rw [hlen] at hi
    have hswi : swAt w7 rb i = w := hgi
    rw [heq, List.any_eq_true]
    interval_cases i
    · refine ⟨_, List.mem_cons_self _ _, ?_⟩
      simp [lessonMentions, hswi]
    · refine ⟨_, List.mem_cons_of_mem _ (List.mem_cons_self _ _), ?_⟩
      simp only [lessonMentions]
      rw [List.any_eq_true]
      refine ⟨⟨(swAt w7 rb 1).signVideo, (swAt w7 rb 1).word, "1"⟩,
        hp2.mem_iff.mpr (by simp), ?_⟩
      simp [hswi]
    · refine ⟨_, List.mem_cons_of_mem _ (List.mem_cons_self _ _), ?_⟩
      simp only [lessonMentions]
      rw [List.any_eq_true]
      refine ⟨⟨(swAt w7 rb 2).signVideo, (swAt w7 rb 2).word, "2"⟩,
        hp2.mem_iff.mpr (by simp), ?_⟩
      simp [hswi]
    · refine ⟨_, List.mem_cons_of_mem _
        (List.mem_cons_of_mem _ (List.mem_cons_self _ _)), ?_⟩
      simp [lessonMentions, hswi]
    · refine ⟨_, List.mem_cons_of_mem _ (List.mem_cons_of_mem _
        (List.mem_cons_of_mem _ (List.mem_cons_self _ _))), ?_⟩
      simp only [lessonMentions]
      rw [List.any_eq_true]
      refine ⟨⟨(swAt w7 rb 4).signVideo, (swAt w7 rb 4).word, "3"⟩,
        hp4.mem_iff.mpr (by simp), ?_⟩
      simp [hswi]
    · refine ⟨_, List.mem_cons_of_mem _ (List.mem_cons_of_mem _
        (List.mem_cons_of_mem _ (List.mem_cons_self _ _))), ?_⟩
      simp only [lessonMentions]
      rw [List.any_eq_true]
      refine ⟨⟨(swAt w7 rb 5).signVideo, (swAt w7 rb 5).word, "4"⟩,
        hp4.mem_iff.mpr (by simp), ?_⟩
      simp [hswi]
    · refine ⟨_, List.mem_cons_of_mem _ (List.mem_cons_of_mem _
        (List.mem_cons_of_mem _ (List.mem_cons_of_mem _
          (List.mem_cons_self _ _)))), ?_⟩
      simp [lessonMentions, hswi]
  · intro l hl
    have hnd1 : [(swAt w7 rb 0).word, (swAt w7 rb 1).word, (swAt w7 rb 2).word,
        (swAt w7 rb 3).word].Nodup := by
      have h01 := hne 0 1 (by omega) (by omega) (by omega)
      have h02 := hne 0 2 (by omega) (by omega) (by omega)
      have h03 := hne 0 3 (by omega) (by omega) (by omega)
      have h12 := hne 1 2 (by omega) (by omega) (by omega)
      have h13 := hne 1 3 (by omega) (by omega) (by omega)
      have h23 := hne 2 3 (by omega) (by omega) (by omega)
      simp [List.nodup_cons, h01, h02, h03, h12, h13, h23]
    have hnd3 : [(swAt w7 rb 3).word, (swAt w7 rb 4).word, (swAt w7 rb 5).word,
        (swAt w7 rb 6).word].Nodup := by
      have h34 := hne 3 4 (by omega) (by omega) (by omega)
      have h35 := hne 3 5 (by omega) (by omega) (by omega)
      have h36 := hne 3 6 (by omega) (by omega) (by omega)
      have h45 := hne 4 5 (by omega) (by omega) (by omega)
      have h46 := hne 4 6 (by omega) (by omega) (by omega)
      have h56 := hne 5 6 (by omega) (by omega) (by omega)
      simp [List.nodup_cons, h34, h35, h36, h45, h46, h56]
    have hnd5 : [(swAt w7 rb 6).word, (swAt w7 rb 0).word, (swAt w7 rb 1).word,
        (swAt w7 rb 4).word].Nodup := by
      have h60 := hne 6 0 (by omega) (by omega) (by omega)
      have h61 := hne 6 1 (by omega) (by omega) (by omega)
      have h64 := hne 6 4 (by omega) (by omega) (by omega)
      have h01 := hne 0 1 (by omega) (by omega) (by omega)
      have h04 := hne 0 4 (by omega) (by omega) (by omega)
      have h14 := hne 1 4 (by omega) (by omega) (by omega)
      simp [List.nodup_cons, h60, h61, h64, h01, h04, h14]
    rw [heq] at hl
    simp only [List.mem_cons, List.not_mem_nil, or_false] at hl
    rcases hl with h | h | h | h | h | h <;> rw [h]
    · exact ⟨hp1.length_eq, hp1.mem_iff.mpr (by simp), hp1.symm.nodup hnd1⟩
    · exact hp2.length_eq
    · exact ⟨hp3.length_eq, hp3.mem_iff.mpr (by simp), hp3.symm.nodup hnd3⟩
    · exact hp4.length_eq
    · exact ⟨hp5.length_eq, hp5.mem_iff.mpr (by simp), hp5.symm.nodup hnd5⟩
    · exact hp6.length_eq

theorem claim_C8_witness :
    (quizPool.take 6).length < 7 ∧ quizPool.length = 7
    ∧ (quizPool.map Word.word).Nodup
    ∧ generateQuizLessons (quizPool.take 6) rngZeros =
        [Lesson.error "Not enough words to generate a quiz."]
    ∧ (generateQuizLessons quizPool rngZeros).map lessonType =
        ["translation", "matching_pairs", "translation",
         "matching_pairs", "translation", "matching_pairs"]
    ∧ (∀ w ∈ quizPool, (generateQuizLessons quizPool rngZeros).any
        (fun l => lessonMentions l w.word) = true)
    ∧ (∀ l ∈ generateQuizLessons quizPool rngZeros, challengeOk l) := by
  have h := claim_C8 (quizPool.take 6) quizPool rngZeros rngZeros
    (by decide) (by decide) (by decide)
  exact ⟨by decide, by decide, by decide, h.1, h.2.1, h.2.2.1, h.2.2.2⟩

/-- C9 counterexample: the claim asserts the item-to-challenge assignment is
a deterministic function of the input pool alone, but the source shuffles
the pool with `Math.random()` first: with the same 7-word pool, two runs
whose first random draw differs already assign different items as the
translation targets (the lists of correct answers differ). -/
theorem claim_C9_counterexample :
    (generateQuizLessons quizPool rngZeros).map lessonCorrect ≠
      (generateQuizLessons quizPool rngOne).map lessonCorrect := by
  decide

/-- C9 amended: the assignment of pool items to challenge roles is a
deterministic function of the pool together with the random draws: once the
draws are fixed, the challenge list is exactly the six-lesson structure
whose translation targets sit at positions 0, 3, 6 of the shuffled pool,
whose decoy options come from the fixed shuffled positions (1,2,3), (4,5,6)
and (0,1,4), and whose pairs are the fixed shuffled positions (1,2), (4,5)
and (0,6) — decoys are never independently resampled, and the shuffled pool
is a permutation of the input pool. -/
theorem claim_C9_amended (words : List Word) (rng : List Nat)
    (h7 : ¬ words.length < 7) :
    generateQuizLessons words rng =
      [Lesson.translation "Translate the sign to the correct word."
         (swAt words rng 0).signVideo (swAt words rng 0).word (qOpts1 words rng).1,
       Lesson.matchingPairs ("Tap the matching pair (" ++ (swAt words rng 1).word
         ++ " & " ++ (swAt words rng 2).word ++ ")") (qItems2 words rng).1,
       Lesson.translation "What is being signed?"
         (swAt words rng 3).signVideo (swAt words rng 3).word (qOpts3 words rng).1,
       Lesson.matchingPairs ("Tap the matching pair (" ++ (swAt words rng 4).word
         ++ " & " ++ (swAt words rng 5).word ++ ")") (qItems4 words rng).1,
       Lesson.translation "Guess the correct translation."
         (swAt words rng 6).signVideo (swAt words rng 6).word (qOpts5 words rng).1,
       Lesson.matchingPairs ("Tap the matching pair (" ++ (swAt words rng 0).word
         ++ " & " ++ (swAt words rng 6).word ++ ")") (qItems6 words rng).1]
    ∧ (qOpts1 words rng).1.Perm [(swAt words rng 0).word, (swAt words rng 1).word,
        (swAt words rng 2).word, (swAt words rng 3).word]
    ∧ (qOpts3 words rng).1.Perm [(swAt words rng 3).word, (swAt words rng 4).word,
        (swAt words rng 5).word, (swAt words rng 6).word]
    ∧ (qOpts5 words rng).1.Perm [(swAt words rng 6).word, (swAt words rng 0).word,
        (swAt words rng 1).word, (swAt words rng 4).word]
    ∧ (qItems2 words rng).1.Perm
        [⟨(swAt words rng 1).signVideo, (swAt words rng 1).word, "1"⟩,
         ⟨(swAt words rng 2).signVideo, (swAt words rng 2).word, "2"⟩]
    ∧ (qItems4 words rng).1.Perm
        [⟨(swAt words rng 4).signVideo, (swAt words rng 4).word, "3"⟩,
         ⟨(swAt words rng 5).signVideo, (swAt words rng 5).word, "4"⟩]
    ∧ (qItems6 words rng).1.Perm
        [⟨(swAt words rng 0).signVideo, (swAt words rng 0).word, "5"⟩,
         ⟨(swAt words rng 6).signVideo, (swAt words rng 6).word, "6"⟩]
    ∧ (shuffleArray words rng).1.Perm words :=
  ⟨generateQuizLessons_eq words rng h7, shuffleArray_perm _ _,
   shuffleArray_perm _ _, shuffleArray_perm _ _, shuffleArray_perm _ _,
   shuffleArray_perm _ _, shuffleArray_perm _ _, shuffleArray_perm _ _⟩

theorem claim_C9_amended_witness :
    (¬ quizPool.length < 7)
    ∧ (generateQuizLessons quizPool rngZeros =
        [Lesson.translation "Translate the sign to the correct word."
           (swAt quizPool rngZeros 0).signVideo (swAt quizPool rngZeros 0).word
           (qOpts1 quizPool rngZeros).1,
         Lesson.matchingPairs ("Tap the matching pair ("
           ++ (swAt quizPool rngZeros 1).word ++ " & "
           ++ (swAt quizPool rngZeros 2).word ++ ")") (qItems2 quizPool rngZeros).1,
         Lesson.translation "What is being signed?"
           (swAt quizPool rngZeros 3).signVideo (swAt quizPool rngZeros 3).word
           (qOpts3 quizPool rngZeros).1,
         Lesson.matchingPairs ("Tap the matching pair ("
           ++ (swAt quizPool rngZeros 4).word ++ " & "
           ++ (swAt quizPool rngZeros 5).word ++ ")") (qItems4 quizPool rngZeros).1,
         Lesson.translation "Guess the correct translation."
           (swAt quizPool rngZeros 6).signVideo (swAt quizPool rngZeros 6).word
           (qOpts5 quizPool rngZeros).1,
         Lesson.matchingPairs ("Tap the matching pair ("
           ++ (swAt quizPool rngZeros 0).word ++ " & "
           ++ (swAt quizPool rngZeros 6).word ++ ")") (qItems6 quizPool rngZeros).1]
      ∧ (qOpts1 quizPool rngZeros).1.Perm [(swAt quizPool rngZeros 0).word,
          (swAt quizPool rngZeros 1).word, (swAt quizPool rngZeros 2).word,
          (swAt quizPool rngZeros 3).word]
      ∧ (qOpts3 quizPool rngZeros).1.Perm [(swAt quizPool rngZeros 3).word,
          (swAt quizPool rngZeros 4).word, (swAt quizPool rngZeros 5).word,
          (swAt quizPool rngZeros 6).word]
      ∧ (qOpts5 quizPool rngZeros).1.Perm [(swAt quizPool rngZeros 6).word,
          (swAt quizPool rngZeros 0).word, (swAt quizPool rngZeros 1).word,
          (swAt quizPool rngZeros 4).word]
      ∧ (qItems2 quizPool rngZeros).1.Perm
          [⟨(swAt quizPool rngZeros 1).signVideo, (swAt quizPool rngZeros 1).word, "1"⟩,
           ⟨(swAt quizPool rngZeros 2).signVideo, (swAt quizPool rngZeros 2).word, "2"⟩]
      ∧ (qItems4 quizPool rngZeros).1.Perm
          [⟨(swAt quizPool rngZeros 4).signVideo, (swAt quizPool rngZeros 4).word, "3"⟩,
           ⟨(swAt quizPool rngZeros 5).signVideo, (swAt quizPool rngZeros 5).word, "4"⟩]
      ∧ (qItems6 quizPool rngZeros).1.Perm
          [⟨(swAt quizPool rngZeros 0).signVideo, (swAt quizPool rngZeros 0).word, "5"⟩,
           ⟨(swAt quizPool rngZeros 6).signVideo, (swAt quizPool rngZeros 6).word, "6"⟩]
      ∧ (shuffleArray quizPool rngZeros).1.Perm quizPool) :=
  ⟨by decide, claim_C9_amended quizPool rngZeros (by decide)⟩

end SislApp
